import Mathlib

/-!
Verification of the pysics units / data-array library.

This file shallowly embeds the core of the repository:

* `src/pysics/units.py` — the `Dimension` exponent vectors and the
  unit-checked `Quantity` arithmetic (classes `Dimension`, `Quantity`,
  functions `turn_to_Quantity`, `SIValue`, `unit`);
* `src/arrays.py` — the `DataArray` container (construction, linear
  interpolation `__call__`, resampling `__compute_x_scale`, trapezoidal
  integration `integ`) and the helpers `sampleFunction`,
  `isInAscendingOrder`.

Numeric payloads are modelled by `ℚ` (the scenarios in the spec use only
dyadic rationals, whose float arithmetic is exact, so the rational and the
floating computation agree on every concrete input used below).  Python
exceptions are modelled by `Except Err`; the constructors of `Err` follow
the *kind* of the raised Python exception.  The sympy display symbol that
`Quantity` carries is omitted: it is used for pretty-printing only and
never feeds back into values, units or control flow.
-/

namespace Pysics

/-- Kinds of Python exceptions raised by the embedded code.
`unsortedArray`, `invalidInterval` and `outOfRange` are the three generic
`Exception`s raised by `DataArray.integ`; `inconsistentUnit` and
`shapeError` the generic `Exception`s of `sampleFunction` and
`DataArray.__init__`; the remaining constructors correspond to the builtin
Python exception classes of the same name. -/
inductive Err where
  | dimensionError
  | typeError
  | valueError
  | indexError
  | attributeError
  | unsortedArray
  | invalidInterval
  | outOfRange
  | inconsistentUnit
  | shapeError
deriving DecidableEq, Repr

/-- `Dimension` (units.py line 102): one integer exponent per entry of
`list_of_basic_SI_units = ['m','s','kg','A','K','cd','mol','rad']`. -/
structure Dimension where
  m : Int
  s : Int
  kg : Int
  A : Int
  K : Int
  cd : Int
  mol : Int
  rad : Int
deriving DecidableEq, Repr

/-- `Dimension.__mul__` (units.py line 141): pointwise exponent addition. -/
def Dimension.mul (x y : Dimension) : Dimension :=
  ⟨x.m + y.m, x.s + y.s, x.kg + y.kg, x.A + y.A,
   x.K + y.K, x.cd + y.cd, x.mol + y.mol, x.rad + y.rad⟩

/-- `Dimension.__div__` (units.py line 150): pointwise exponent subtraction. -/
def Dimension.div (x y : Dimension) : Dimension :=
  ⟨x.m - y.m, x.s - y.s, x.kg - y.kg, x.A - y.A,
   x.K - y.K, x.cd - y.cd, x.mol - y.mol, x.rad - y.rad⟩

/-- `Dimension(None)` (units.py line 119): the dimensionless identity. -/
def dimNone : Dimension := ⟨0, 0, 0, 0, 0, 0, 0, 0⟩

/-- `Dimension('s')`. -/
def dimS : Dimension := ⟨0, 1, 0, 0, 0, 0, 0, 0⟩

/-- `Dimension('kg')`. -/
def dimKg : Dimension := ⟨0, 0, 1, 0, 0, 0, 0, 0⟩

/-- `Quantity` (units.py line 220): a numeric value paired with a
`Dimension`.  The display-only sympy `symbol` field is omitted. -/
structure Quantity where
  value : ℚ
  unit : Dimension
deriving DecidableEq, Repr

/-- A Python value that is either a bare number or a `Quantity`; the
results of `Quantity` arithmetic live in this type because
`removeUnitIfPossible` (units.py line 246) degrades dimensionless
quantities to bare numbers. -/
inductive PhysVal where
  | num (x : ℚ)
  | quant (q : Quantity)
deriving DecidableEq, Repr

/-- `turn_to_Quantity` (units.py line 177): promote a bare number to a
dimensionless `Quantity`; return quantities unchanged. -/
def turnToQuantity : PhysVal → Quantity
  | .num x => ⟨x, dimNone⟩
  | .quant q => q

/-- `SIValue` (units.py line 192): value of a quantity, identity on bare
numbers. -/
def SIValue : PhysVal → ℚ
  | .num x => x
  | .quant q => q.value

/-- `unit` (units.py line 186): the unit of a quantity; for a bare number
the attribute access fails and the dimensionless unit is returned. -/
def unitOf : PhysVal → Dimension
  | .num _ => dimNone
  | .quant q => q.unit

/-- `Quantity.isDimensionless` (units.py line 243). -/
def Quantity.isDimensionless (q : Quantity) : Bool :=
  q.unit = dimNone

/-- `Quantity.removeUnitIfPossible` (units.py line 246). -/
def Quantity.removeUnitIfPossible (q : Quantity) : PhysVal :=
  if q.unit = dimNone then .num q.value else .quant q

/-- `Quantity.__add__` (units.py line 252): promote, require equal units,
keep the left unit.  The result is always a `Quantity` (no auto-unwrap). -/
def qadd (a : Quantity) (y : PhysVal) : Except Err Quantity :=
  let Y := turnToQuantity y
  if a.unit = Y.unit then .ok ⟨a.value + Y.value, a.unit⟩
  else .error .dimensionError

/-- `Quantity.__sub__` (units.py line 259).  NOTE: the mismatch branch of
the source builds its message from `y.unit` — the *unpromoted* operand —
so when `y` is a bare number the attribute access itself fails and an
`AttributeError` (not a `DimensionError`) escapes. -/
def qsub (a : Quantity) (y : PhysVal) : Except Err Quantity :=
  let Y := turnToQuantity y
  if a.unit = Y.unit then .ok ⟨a.value - Y.value, a.unit⟩
  else
    match y with
    | .num _ => .error .attributeError
    | .quant _ => .error .dimensionError

/-- `Quantity.__mul__` (units.py line 266): total; multiplies values and
units, then auto-unwraps a dimensionless result. -/
def qmul (a : Quantity) (y : PhysVal) : PhysVal :=
  let Y := turnToQuantity y
  Quantity.removeUnitIfPossible ⟨a.value * Y.value, a.unit.mul Y.unit⟩

/-- `Quantity.__div__` (units.py line 274).  Division of the rational
payloads totalises division by zero as `0` (the numpy payloads of the
source produce `inf` without raising there). -/
def qdiv (a : Quantity) (y : PhysVal) : PhysVal :=
  let Y := turnToQuantity y
  Quantity.removeUnitIfPossible ⟨a.value / Y.value, a.unit.div Y.unit⟩

/-- `Quantity.__eq__` (units.py line 322): `False` on unit mismatch,
value comparison otherwise.  Never raises. -/
def qeq (a : Quantity) (y : PhysVal) : Bool :=
  let Y := turnToQuantity y
  if a.unit = Y.unit then decide (a.value = Y.value) else false

/-- `Quantity.__ne__` (units.py line 329): raises on unit mismatch. -/
def qne (a : Quantity) (y : PhysVal) : Except Err Bool :=
  let Y := turnToQuantity y
  if a.unit = Y.unit then .ok (decide (a.value ≠ Y.value))
  else .error .dimensionError

/-- `Quantity.__gt__` (units.py line 337): raises on unit mismatch. -/
def qgt (a : Quantity) (y : PhysVal) : Except Err Bool :=
  let Y := turnToQuantity y
  if a.unit = Y.unit then .ok (decide (Y.value < a.value))
  else .error .dimensionError

/-- `Quantity.__lt__` (units.py line 347): raises on unit mismatch. -/
def qlt (a : Quantity) (y : PhysVal) : Except Err Bool :=
  let Y := turnToQuantity y
  if a.unit = Y.unit then .ok (decide (a.value < Y.value))
  else .error .dimensionError

/-- `Quantity.__ge__` (units.py line 344): `self > y or self == y`. -/
def qge (a : Quantity) (y : PhysVal) : Except Err Bool := do
  let g ← qgt a y
  pure (g || qeq a y)

/-- `Quantity.__le__` (units.py line 354): `self < y or self == y`. -/
def qle (a : Quantity) (y : PhysVal) : Except Err Bool := do
  let l ← qlt a y
  pure (l || qeq a y)

/-- Binary `+` between possibly-bare values, following the Python dispatch:
two bare numbers add natively; otherwise `Quantity.__add__` or the
commutative `__radd__` (units.py line 305) runs after promotion. -/
def pvAdd : PhysVal → PhysVal → Except Err PhysVal
  | .num a, .num b => .ok (.num (a + b))
  | .quant q, y => (qadd q y).map .quant
  | .num a, .quant q => (qadd q (.num a)).map .quant

/-- Binary `-`: two bare numbers subtract natively; `x - q` with bare `x`
goes through `__rsub__` (units.py line 308) which promotes `x` first. -/
def pvSub : PhysVal → PhysVal → Except Err PhysVal
  | .num a, .num b => .ok (.num (a - b))
  | .quant q, y => (qsub q y).map .quant
  | .num a, .quant q => (qsub ⟨a, dimNone⟩ (.quant q)).map .quant

/-- Binary `*`: bare times bare is native; a bare left operand reaches
`__rmul__` (units.py line 312). -/
def pvMul : PhysVal → PhysVal → PhysVal
  | .num a, .num b => .num (a * b)
  | .quant q, y => qmul q y
  | .num a, .quant q => qmul q (.num a)

/-- Binary `/`: bare over bare is native; a bare numerator reaches
`__rdiv__` (units.py line 315) which promotes it. -/
def pvDiv : PhysVal → PhysVal → PhysVal
  | .num a, .num b => .num (a / b)
  | .quant q, y => qdiv q y
  | .num a, .quant q => qdiv ⟨a, dimNone⟩ (.quant q)

/-- Binary `<`: a bare left operand reflects into `Quantity.__gt__`. -/
def pvLt : PhysVal → PhysVal → Except Err Bool
  | .num a, .num b => .ok (decide (a < b))
  | .quant q, y => qlt q y
  | .num a, .quant q => qgt q (.num a)

/-- Binary `>`: a bare left operand reflects into `Quantity.__lt__`. -/
def pvGt : PhysVal → PhysVal → Except Err Bool
  | .num a, .num b => .ok (decide (b < a))
  | .quant q, y => qgt q y
  | .num a, .quant q => qlt q (.num a)

/-- `isInAscendingOrder` (arrays.py line 252): all consecutive differences
strictly positive (`np.all` of an empty difference list is true). -/
def isInAscendingOrder : List ℚ → Bool
  | x :: y :: rest => decide (x < y) && isInAscendingOrder (y :: rest)
  | _ => true

/-- `np.min` of a 1-D array; raises `ValueError` on an empty array. -/
def npMin : List ℚ → Except Err ℚ
  | [] => .error .valueError
  | x :: xs => .ok (xs.foldl min x)

/-- `np.max` of a 1-D array; raises `ValueError` on an empty array. -/
def npMax : List ℚ → Except Err ℚ
  | [] => .error .valueError
  | x :: xs => .ok (xs.foldl max x)

/-- `np.diff`: consecutive differences. -/
def npDiff (l : List ℚ) : List ℚ :=
  List.zipWith (fun a b => b - a) l l.tail

/-- `np.interp(x, X, Y)` restricted to same-length `X`, `Y` with `X`
ascending: clamped piecewise-linear interpolation.  (The unreachable
mismatched/empty cases return `0`; numpy raises there, and every use
below is guarded by hypotheses or errors that keep those cases out.) -/
def npInterp (x : ℚ) : List ℚ → List ℚ → ℚ
  | [_], y0 :: _ => y0
  | x0 :: x1 :: Xr, y0 :: y1 :: Yr =>
    if x ≤ x0 then y0
    else if x ≤ x1 then y0 + (y1 - y0) * (x - x0) / (x1 - x0)
    else npInterp x (x1 :: Xr) (y1 :: Yr)
  | _, _ => 0

/-- `np.arange(start, stop, step)`: `start + k*step` for
`0 ≤ k < ⌈(stop - start)/step⌉`. -/
def npArange (start stop step : ℚ) : List ℚ :=
  (List.range (Int.toNat ⌈(stop - start) / step⌉)).map
    (fun k : ℕ => start + (k : ℚ) * step)

/-- `np.linspace(a, b, num = n)`: `n` evenly spaced samples including both
endpoints (a single sample sits at `a`). -/
def linspace (a b : ℚ) (n : ℕ) : List ℚ :=
  if n = 1 then [a]
  else (List.range n).map
    (fun k : ℕ => a + (k : ℚ) * (b - a) / ((n : ℚ) - 1))

/-- `DataArray` (arrays.py line 11).  The class stores each axis as the
raw value array (`X_without_units`, `Y_without_units`) plus its axis unit
(`X_unit = Quantity(1, unit(X_with_units))`, same for Y); those four
components are the fields here. -/
structure DataArray where
  X : List ℚ
  Y : List ℚ
  Xdim : Dimension
  Ydim : Dimension
deriving DecidableEq, Repr

/-- `DataArray.__init__` (arrays.py line 65): the only validation is the
shape check — both axes 1-D (by typing here) and of equal length. -/
def mkDataArray (X Y : List ℚ) (dx dy : Dimension) : Except Err DataArray :=
  if X.length = Y.length then .ok ⟨X, Y, dx, dy⟩ else .error .shapeError

/-- An element of `X_with_units` / `Y_with_units`.  A unit-bearing axis
(built as `values * Quantity(1, d)`) is a `Quantity` array whose
`__getitem__` (units.py line 387) wraps each element in the axis unit; a
dimensionless axis is a bare ndarray whose elements are bare numbers.
Both cases are `removeUnitIfPossible ⟨v, d⟩`. -/
def axisElem (v : ℚ) (d : Dimension) : PhysVal :=
  Quantity.removeUnitIfPossible ⟨v, d⟩

/-- Indexing an axis: `IndexError` out of bounds, `axisElem` otherwise. -/
def axisGet (l : List ℚ) (d : Dimension) (i : ℕ) : Except Err PhysVal :=
  match l.get? i with
  | some v => .ok (axisElem v d)
  | none => .error .indexError

/-- `DataArray.__call__` (arrays.py line 184): check the argument unit via
`float(x / X_unit)` (a residual unit makes `float` raise, re-raised as a
`TypeError`), check the abscissa range, then interpolate and re-attach the
Y axis unit. -/
def DataArray.call (A : DataArray) (x : Quantity) : Except Err PhysVal := do
  let xv ← match qdiv x (.quant ⟨1, A.Xdim⟩) with
    | .num v => Except.ok v
    | .quant _ => Except.error Err.typeError
  let mn ← npMin A.X
  let mx ← npMax A.X
  let bLo ← qge x (pvMul (.num mn) (.quant ⟨1, A.Xdim⟩))
  if bLo then do
    let bHi ← qle x (pvMul (.num mx) (.quant ⟨1, A.Xdim⟩))
    if bHi then
      .ok (pvMul (.num (npInterp xv A.X A.Y)) (.quant ⟨1, A.Ydim⟩))
    else .error .valueError
  else .error .valueError

/-- One trapezoid `(Y2 + Y1)/2 * (X2 - X1)` (arrays.py lines 216, 224,
231), with the operands evaluated in Python order. -/
def trapezoid (x1 y1 x2 y2 : PhysVal) : Except Err PhysVal := do
  let sY ← pvAdd y2 y1
  let dX ← pvSub x2 x1
  .ok (pvMul (pvDiv sY (.num 2)) dX)

/-- The first scanning loop of `integ` (arrays.py lines 208-210):
`while self.X_with_units[i] < xmin: i += 1`, walking the suffix of `X`
that starts at index `i`.  Running past the end raises `IndexError`. -/
def integScanMin (d : Dimension) (xmin : Quantity) :
    List ℚ → ℕ → Except Err ℕ
  | [], _ => .error .indexError
  | v :: rest, i => do
    let b ← pvLt (axisElem v d) (.quant xmin)
    if b then integScanMin d xmin rest (i + 1) else .ok i

/-- The second scanning loop of `integ` (arrays.py lines 219-225):
accumulate interior trapezoids while `X[i] < xmax`; the suffix argument is
`A.X.drop i`.  Running past the end raises `IndexError`. -/
def integScanMax (A : DataArray) (xmax : Quantity) :
    List ℚ → ℕ → PhysVal → Except Err (ℕ × PhysVal)
  | [], _, _ => .error .indexError
  | v :: rest, i, acc => do
    let b ← pvLt (axisElem v A.Xdim) (.quant xmax)
    if b then do
      let x1 ← axisGet A.X A.Xdim (i - 1)
      let y1 ← axisGet A.Y A.Ydim (i - 1)
      let x2 ← axisGet A.X A.Xdim i
      let y2 ← axisGet A.Y A.Ydim i
      let t ← trapezoid x1 y1 x2 y2
      let acc2 ← pvAdd acc t
      integScanMax A xmax rest (i + 1) acc2
    else .ok (i, acc)

/-- `DataArray.integ` (arrays.py line 198): precondition checks (in source
order), the boundary trapezoid at `xmin` using interpolation, interior
trapezoids, and the boundary trapezoid at `xmax`. -/
def DataArray.integ (A : DataArray) (xmin xmax : Quantity) :
    Except Err PhysVal := do
  let mn ← npMin A.X
  let mx ← npMax A.X
  let min_X := pvMul (.num mn) (.quant ⟨1, A.Xdim⟩)
  let max_X := pvMul (.num mx) (.quant ⟨1, A.Xdim⟩)
  if ¬ isInAscendingOrder A.X then .error .unsortedArray
  else do
    let bI ← qgt xmin (.quant xmax)
    if bI then .error .invalidInterval
    else do
      let bLo ← qlt xmin min_X
      if bLo then .error .outOfRange
      else do
        let bHi ← qgt xmax max_X
        if bHi then .error .outOfRange
        else do
          let i0 ← integScanMin A.Xdim xmin A.X 0
          let y1v ← A.call xmin
          let x2 ← axisGet A.X A.Xdim i0
          let y2 ← axisGet A.Y A.Ydim i0
          let acc0 ← trapezoid (.quant xmin) y1v x2 y2
          let st ← integScanMax A xmax (A.X.drop (i0 + 1)) (i0 + 1) acc0
          let x1e ← axisGet A.X A.Xdim (st.1 - 1)
          let y1e ← axisGet A.Y A.Ydim (st.1 - 1)
          let y2e ← A.call xmax
          let tEnd ← trapezoid x1e y1e (.quant xmax) y2e
          pvAdd st.2 tEnd

/-- `DataArray.__compute_x_scale` (arrays.py line 93): unit check on the X
axes (`self.X_unit != other.X_unit`, whose `__ne__` itself raises the
`DimensionError` on mismatch), overlap bounds, minimum consecutive
spacing, `np.arange` grid, and both interpolated Y sequences. -/
def computeXScale (A B : DataArray) :
    Except Err (List ℚ × List ℚ × List ℚ) := do
  let bne ← qne ⟨1, A.Xdim⟩ (.quant ⟨1, B.Xdim⟩)
  if bne then .error .dimensionError
  else do
    let mn1 ← npMin A.X
    let mn2 ← npMin B.X
    let mx1 ← npMax A.X
    let mx2 ← npMax B.X
    let s1 ← npMin (npDiff A.X)
    let s2 ← npMin (npDiff B.X)
    let x_min := max mn1 mn2
    let x_max := min mx1 mx2
    let x_step := min s1 s2
    let new_x := npArange x_min (x_max + x_step) x_step
    .ok (new_x,
         new_x.map (fun x => npInterp x A.X A.Y),
         new_x.map (fun x => npInterp x B.X B.Y))

/-- The loop of `sampleFunction` (arrays.py lines 241-245), traversing the
sample abscissas after the first: evaluate `f`, compare `unit(result)`
against the captured Y unit, store `SIValue(result)`. -/
def sampleLoop (f : Quantity → Except Err PhysVal) (dx yu : Dimension) :
    List ℚ → Except Err (List ℚ)
  | [] => .ok []
  | x :: rest => do
    let result ← f ⟨x, dx⟩
    if unitOf result ≠ yu then .error .inconsistentUnit
    else do
      let ys ← sampleLoop f dx yu rest
      .ok (SIValue result :: ys)

/-- `sampleFunction` (arrays.py line 235).  Note that the first sample is
special-cased by the source: its result feeds `Y1.value` directly, an
attribute access that fails with `AttributeError` when `Y1` is a bare
number, while later samples go through the total `SIValue`. -/
def sampleFunction (f : Quantity → Except Err PhysVal)
    (xmin xmax : Quantity) (n : ℕ) : Except Err DataArray := do
  let Xs := linspace xmin.value xmax.value n
  let x0 ← match Xs.get? 0 with
    | some v => Except.ok v
    | none => Except.error Err.indexError
  let Y1 ← f ⟨x0, xmin.unit⟩
  let yu := unitOf Y1
  let y0 ← match Y1 with
    | .quant q => Except.ok q.value
    | .num _ => Except.error Err.attributeError
  let ys ← sampleLoop f xmin.unit yu (Xs.drop 1)
  mkDataArray Xs (y0 :: ys) xmin.unit yu

/-- `f(x) = x/s*kg + 1kg`, the sampled function of the spec scenario. -/
def fLinear (x : Quantity) : Except Err PhysVal :=
  pvAdd (pvMul (pvDiv (.quant x) (.quant ⟨1, dimS⟩)) (.quant ⟨1, dimKg⟩))
    (.quant ⟨1, dimKg⟩)

/-- `f(x) = x/s`: a function whose outputs are bare dimensionless numbers
(the auto-unwrap of `Quantity.__div__` fires at every sample). -/
def fDimless (x : Quantity) : Except Err PhysVal :=
  .ok (pvDiv (.quant x) (.quant ⟨1, dimS⟩))

/-! ### Supporting lemmas -/

theorem bind_ok {α β : Type} (a : α) (f : α → Except Err β) :
    (Except.ok a >>= f) = f a := rfl

theorem bind_err {α β : Type} (e : Err) (f : α → Except Err β) :
    ((Except.error e : Except Err α) >>= f) = Except.error e := rfl

@[simp] theorem dimNone_mul (d : Dimension) : dimNone.mul d = d := by
  cases d; simp [Dimension.mul, dimNone]

@[simp] theorem mul_dimNone (d : Dimension) : d.mul dimNone = d := by
  cases d; simp [Dimension.mul, dimNone]

@[simp] theorem div_dimNone (d : Dimension) : d.div dimNone = d := by
  cases d; simp [Dimension.div, dimNone]

theorem div_self_dim (d : Dimension) : d.div d = dimNone := by
  cases d; simp [Dimension.div, dimNone]

@[simp] theorem unitOf_num (x : ℚ) : unitOf (.num x) = dimNone := rfl

@[simp] theorem unitOf_quant (q : Quantity) : unitOf (.quant q) = q.unit := rfl

@[simp] theorem SIValue_num (x : ℚ) : SIValue (.num x) = x := rfl

@[simp] theorem SIValue_quant (q : Quantity) : SIValue (.quant q) = q.value := rfl

@[simp] theorem turnToQuantity_unit (y : PhysVal) :
    (turnToQuantity y).unit = unitOf y := by cases y <;> rfl

@[simp] theorem turnToQuantity_value (y : PhysVal) :
    (turnToQuantity y).value = SIValue y := by cases y <;> rfl

@[simp] theorem unitOf_removeUnit (q : Quantity) :
    unitOf q.removeUnitIfPossible = q.unit := by
  unfold Quantity.removeUnitIfPossible
  split <;> simp_all [unitOf]

@[simp] theorem SIValue_removeUnit (q : Quantity) :
    SIValue q.removeUnitIfPossible = q.value := by
  unfold Quantity.removeUnitIfPossible
  split <;> simp_all [SIValue]

@[simp] theorem unitOf_axisElem (v : ℚ) (d : Dimension) :
    unitOf (axisElem v d) = d := unitOf_removeUnit ⟨v, d⟩

@[simp] theorem SIValue_axisElem (v : ℚ) (d : Dimension) :
    SIValue (axisElem v d) = v := SIValue_removeUnit ⟨v, d⟩

theorem qlt_of_units {a : Quantity} {y : PhysVal} (h : a.unit = unitOf y) :
    qlt a y = .ok (decide (a.value < SIValue y)) := by
  simp [qlt, h]

theorem qgt_of_units {a : Quantity} {y : PhysVal} (h : a.unit = unitOf y) :
    qgt a y = .ok (decide (SIValue y < a.value)) := by
  simp [qgt, h]

theorem pvLt_of_units {v w : PhysVal} (h : unitOf v = unitOf w) :
    pvLt v w = .ok (decide (SIValue v < SIValue w)) := by
  cases v with
  | num a =>
    cases w with
    | num b => rfl
    | quant q =>
      have hq : q.unit = unitOf (PhysVal.num a) := by
        simpa [unitOf] using h.symm
      simpa [pvLt, SIValue] using qgt_of_units hq
  | quant q =>
    have hq : q.unit = unitOf w := by simpa [unitOf] using h
    simpa [pvLt, SIValue] using qlt_of_units hq

theorem pvAdd_succ {v w : PhysVal} (h : unitOf v = unitOf w) :
    ∃ u, pvAdd v w = .ok u ∧ unitOf u = unitOf v := by
  cases v with
  | num a =>
    cases w with
    | num b => exact ⟨.num (a + b), rfl, rfl⟩
    | quant q =>
      have hq : q.unit = dimNone := by simpa using h.symm
      exact ⟨.quant ⟨q.value + a, q.unit⟩,
        by simp [pvAdd, qadd, hq, Except.map], by simp [hq]⟩
  | quant q =>
    refine ⟨.quant ⟨q.value + SIValue w, q.unit⟩, ?_, rfl⟩
    have hq : q.unit = unitOf w := by simpa using h
    simp [pvAdd, qadd, hq, Except.map]

theorem pvSub_succ {v w : PhysVal} (h : unitOf v = unitOf w) :
    ∃ u, pvSub v w = .ok u ∧ unitOf u = unitOf v := by
  cases v with
  | num a =>
    cases w with
    | num b => exact ⟨.num (a - b), rfl, rfl⟩
    | quant q =>
      have hq : q.unit = dimNone := by simpa using h.symm
      exact ⟨.quant ⟨a - q.value, dimNone⟩,
        by simp [pvSub, qsub, hq, Except.map], by simp [hq]⟩
  | quant q =>
    refine ⟨.quant ⟨q.value - SIValue w, q.unit⟩, ?_, rfl⟩
    have hq : q.unit = unitOf w := by simpa using h
    simp [pvSub, qsub, hq, Except.map]

theorem unitOf_pvMul (v w : PhysVal) :
    unitOf (pvMul v w) = (unitOf v).mul (unitOf w) := by
  cases v <;> cases w <;> simp [pvMul, qmul]

theorem unitOf_pvDiv_num (v : PhysVal) (c : ℚ) :
    unitOf (pvDiv v (.num c)) = unitOf v := by
  cases v <;> simp [pvDiv, qdiv]

theorem trapezoid_succ (x1 y1 x2 y2 : PhysVal)
    (hx : unitOf x1 = unitOf x2) (hy : unitOf y1 = unitOf y2) :
    ∃ t, trapezoid x1 y1 x2 y2 = .ok t ∧
      unitOf t = (unitOf y2).mul (unitOf x2) := by
  obtain ⟨sY, hsY, husY⟩ := pvAdd_succ hy.symm
  obtain ⟨dX, hdX, hudX⟩ := pvSub_succ (v := x2) (w := x1) hx.symm
  refine ⟨pvMul (pvDiv sY (.num 2)) dX, ?_, ?_⟩
  · simp [trapezoid, hsY, hdX, bind_ok]
  · rw [unitOf_pvMul, unitOf_pvDiv_num, husY, hudX]

/-- `l.get? i` succeeds below the length, returning the `getD` value. -/
theorem get?_of_lt : ∀ (l : List ℚ) (i : ℕ), i < l.length →
    l.get? i = some (l.getD i 0)
  | _ :: _, 0, _ => rfl
  | _ :: xs, i + 1, h =>
    get?_of_lt xs i (by simpa using Nat.lt_of_succ_lt_succ h)

/-- Propositional equality on `Except` results is decidable (needed to
settle concrete scenarios by evaluation). -/
instance {ε α : Type} [DecidableEq ε] [DecidableEq α] :
    DecidableEq (Except ε α)
  | .error a, .error b =>
    if h : a = b then .isTrue (by rw [h])
    else .isFalse (fun hh => by cases hh; exact h rfl)
  | .error _, .ok _ => .isFalse (fun hh => by cases hh)
  | .ok _, .error _ => .isFalse (fun hh => by cases hh)
  | .ok a, .ok b =>
    if h : a = b then .isTrue (by rw [h])
    else .isFalse (fun hh => by cases hh; exact h rfl)

theorem decide_lt_or_eq (x y : ℚ) :
    (decide (x < y) || decide (x = y)) = decide (x ≤ y) := by
  rw [← Bool.decide_or, decide_eq_decide]
  exact (le_iff_lt_or_eq).symm

theorem decide_gt_or_eq (x y : ℚ) :
    (decide (y < x) || decide (x = y)) = decide (y ≤ x) := by
  rw [← Bool.decide_or, decide_eq_decide]
  constructor
  · rintro (h | h)
    · exact le_of_lt h
    · exact le_of_eq h.symm
  · intro h
    exact (lt_or_eq_of_le h).imp id Eq.symm

/-! ### Claims -/

/-- Claim C7: Dimension combination is commutative and total, and
division is its inverse, under exact structural equality of exponent
vectors. -/
theorem claim_C7 (d1 d2 : Dimension) :
    d1.mul d2 = d2.mul d1 ∧ (d1.mul d2).div d2 = d1 := by
  cases d1
  cases d2
  refine ⟨?_, ?_⟩ <;>
    · simp only [Dimension.mul, Dimension.div, Dimension.mk.injEq]
      omega

/-- Counterexample to claim C1 as stated: subtracting a *raw* number from
a kilogram quantity raises an `AttributeError`, not a `DimensionError`,
because the mismatch branch of `Quantity.__sub__` reads `y.unit` on the
unpromoted operand (units.py line 264). -/
theorem claim_C1_cex :
    qsub ⟨1, dimKg⟩ (.num 2) = .error .attributeError ∧
    Err.attributeError ≠ Err.dimensionError := by with_unfolding_all decide

/-- Claim C1, amended: `add` raises `DimensionError` exactly on unequal
Dimensions; `sub` does so too when the second operand is a `Quantity`,
but when it is a raw number an unequal-Dimension subtraction raises
`AttributeError` instead; on equal Dimensions both return the
value sum/difference under Dimension(a). -/
theorem claim_C1_amended (a : Quantity) (y : PhysVal) :
    qadd a y = (if a.unit = (turnToQuantity y).unit
      then .ok ⟨a.value + (turnToQuantity y).value, a.unit⟩
      else .error .dimensionError) ∧
    qsub a y = (if a.unit = (turnToQuantity y).unit
      then .ok ⟨a.value - (turnToQuantity y).value, a.unit⟩
      else match y with
        | .num _ => .error .attributeError
        | .quant _ => .error .dimensionError) :=
  ⟨rfl, rfl⟩

/-- Claim C5: multiplication/division of quantities always succeed, the
result Dimension is the product/quotient, and the result degrades to a
bare number exactly when that Dimension is the dimensionless identity. -/
theorem claim_C5 (a : Quantity) (y : PhysVal) :
    qmul a y = (if a.unit.mul (turnToQuantity y).unit = dimNone
      then .num (a.value * (turnToQuantity y).value)
      else .quant ⟨a.value * (turnToQuantity y).value,
                   a.unit.mul (turnToQuantity y).unit⟩) ∧
    qdiv a y = (if a.unit.div (turnToQuantity y).unit = dimNone
      then .num (a.value / (turnToQuantity y).value)
      else .quant ⟨a.value / (turnToQuantity y).value,
                   a.unit.div (turnToQuantity y).unit⟩) :=
  ⟨rfl, rfl⟩

/-- Claim C6: on unequal Dimensions equality is `false` and never raises,
while every other comparison raises `DimensionError`; on equal Dimensions
all six comparisons compare the numeric values. -/
theorem claim_C6 (a b : Quantity) :
    (a.unit ≠ b.unit →
      qeq a (.quant b) = false ∧
      qne a (.quant b) = .error .dimensionError ∧
      qlt a (.quant b) = .error .dimensionError ∧
      qle a (.quant b) = .error .dimensionError ∧
      qgt a (.quant b) = .error .dimensionError ∧
      qge a (.quant b) = .error .dimensionError) ∧
    (a.unit = b.unit →
      qeq a (.quant b) = decide (a.value = b.value) ∧
      qne a (.quant b) = .ok (decide (a.value ≠ b.value)) ∧
      qlt a (.quant b) = .ok (decide (a.value < b.value)) ∧
      qle a (.quant b) = .ok (decide (a.value ≤ b.value)) ∧
      qgt a (.quant b) = .ok (decide (b.value < a.value)) ∧
      qge a (.quant b) = .ok (decide (b.value ≤ a.value))) := by
  constructor
  · intro h
    simp [qeq, qne, qlt, qle, qgt, qge, h]
  · intro h
    refine ⟨by simp [qeq, h], by simp [qne, h], by simp [qlt, h], ?_,
      by simp [qgt, h], ?_⟩
    · simp [qle, qlt, qeq, h, bind_ok, decide_lt_or_eq]
    · simp [qge, qgt, qeq, h, bind_ok, decide_gt_or_eq]

/-- Witness for claim C6 at concrete quantities: 1 kg against 1 s for the
mismatch half, 2 s against 3 s for the aligned half. -/
theorem claim_C6_witness :
    qeq ⟨1, dimKg⟩ (.quant ⟨1, dimS⟩) = false ∧
    qne ⟨1, dimKg⟩ (.quant ⟨1, dimS⟩) = .error .dimensionError ∧
    qge ⟨1, dimKg⟩ (.quant ⟨1, dimS⟩) = .error .dimensionError ∧
    qle ⟨2, dimS⟩ (.quant ⟨3, dimS⟩) = .ok true := by
  obtain ⟨h1, h2, -, -, -, h3⟩ := (claim_C6 ⟨1, dimKg⟩ ⟨1, dimS⟩).1 (by decide)
  obtain ⟨-, -, -, h4, -, -⟩ := (claim_C6 ⟨2, dimS⟩ ⟨3, dimS⟩).2 (by decide)
  refine ⟨h1, h2, h3, ?_⟩
  rw [h4]
  decide

/-- Claim C2: on the DataArray built from X = [0,1,2,3] s and
Y = [1,2,3,4] kg, `integ(0.5 s, 1.5 s) = 2 s·kg` and
`integ(1 s, 2 s) = 2.5 s·kg`. -/
theorem claim_C2 :
    DataArray.integ ⟨[0, 1, 2, 3], [1, 2, 3, 4], dimS, dimKg⟩
        ⟨1/2, dimS⟩ ⟨3/2, dimS⟩ = .ok (.quant ⟨2, dimS.mul dimKg⟩) ∧
    DataArray.integ ⟨[0, 1, 2, 3], [1, 2, 3, 4], dimS, dimKg⟩
        ⟨1, dimS⟩ ⟨2, dimS⟩ = .ok (.quant ⟨5/2, dimS.mul dimKg⟩) := by with_unfolding_all decide

/-- Counterexample to claim C3 as stated: the same ascending array with
the in-range bounds `xmin = 2.5 s`, `xmax = 3 s` (which satisfy every
precondition of the claim) makes the second scanning loop of `integ` read
`X[4]`, one past the end, so the call dies with an `IndexError` instead
of returning a value. -/
theorem claim_C3_cex :
    isInAscendingOrder [(0 : ℚ), 1, 2, 3] = true ∧
    DataArray.integ ⟨[0, 1, 2, 3], [1, 2, 3, 4], dimS, dimKg⟩
      ⟨5/2, dimS⟩ ⟨3, dimS⟩ = .error .indexError := by with_unfolding_all decide

/-- Counterexample to claim C4 as stated: for
A = ([0, 1, 2.5] s, zeros kg) and B = ([0, 2.5] s, zeros kg) the common
step is 1 and `x_max = 2.5`, but the `np.arange` grid is [0, 1, 2, 3]:
`x_max` is *not* a grid point and the grid point 3 lies outside
`[x_min, x_max]`. -/
theorem claim_C4_cex :
    computeXScale ⟨[0, 1, 5/2], [0, 0, 0], dimS, dimKg⟩
        ⟨[0, 5/2], [0, 0], dimS, dimKg⟩ =
      .ok ([0, 1, 2, 3], [0, 0, 0, 0], [0, 0, 0, 0]) ∧
    ¬ (5/2 : ℚ) ∈ [(0 : ℚ), 1, 2, 3] ∧
    (3 : ℚ) ∈ [(0 : ℚ), 1, 2, 3] ∧ ¬ (3 : ℚ) ≤ 5/2 := by with_unfolding_all decide

/-- Counterexample to claim C9 as stated: constructing a DataArray from
the strictly descending X = [3, 2, 1] (with a matching Y) succeeds — the
constructor checks only shapes, not ordering. -/
theorem claim_C9_cex :
    mkDataArray [3, 2, 1] [1, 2, 3] dimS dimKg =
      .ok ⟨[3, 2, 1], [1, 2, 3], dimS, dimKg⟩ := by with_unfolding_all decide

/-- Counterexample to claim C8 as stated: for `f(x) = x/s`, whose outputs
are bare dimensionless numbers of uniform (dimensionless) output
Dimension, `sampleFunction` neither raises `InconsistentUnitError` nor
returns a DataArray: it dies with an `AttributeError` reading `.value` on
the first output. -/
theorem claim_C8_cex :
    sampleFunction fDimless ⟨0, dimS⟩ ⟨3, dimS⟩ 4 = .error .attributeError ∧
    (∀ i, i < 4 →
      unitOf (pvDiv (.quant ⟨(linspace 0 3 4).getD i 0, dimS⟩)
        (.quant ⟨1, dimS⟩)) = dimNone) := by with_unfolding_all decide

/-- Claim C9, amended: constructing a DataArray from a strictly-descending
X sequence (of valid 1-D shape matching Y) *succeeds*; the ordering is
only checked when `integ` is called, which then fails with the
unsorted-array error whatever the bounds. -/
theorem claim_C9_amended (X Y : List ℚ) (dx dy : Dimension)
    (xmin xmax : Quantity)
    (hlen : X.length = Y.length)
    (hdesc : List.Chain' (fun a b => b < a) X)
    (h2 : 2 ≤ X.length) :
    mkDataArray X Y dx dy = .ok ⟨X, Y, dx, dy⟩ ∧
    DataArray.integ ⟨X, Y, dx, dy⟩ xmin xmax = .error .unsortedArray := by
  obtain ⟨x, y, rest, rfl⟩ : ∃ x y rest, X = x :: y :: rest := by
    cases X with
    | nil => simp at h2
    | cons x xs =>
      cases xs with
      | nil => simp at h2
      | cons y rest => exact ⟨x, y, rest, rfl⟩
  have hyx : y < x := (List.chain'_cons.mp hdesc).1
  have hasc : isInAscendingOrder (x :: y :: rest) = false := by
    simp [isInAscendingOrder, not_lt.mpr (le_of_lt hyx)]
  constructor
  · simp [mkDataArray, hlen]
  · simp [DataArray.integ, npMin, npMax, bind_ok, hasc]

/-- Witness for claim C9 at X = [3, 2, 1] s, Y = [1, 2, 3] kg and the
bounds 1 s, 2 s. -/
theorem claim_C9_witness :
    mkDataArray [3, 2, 1] [1, 2, 3] dimS dimKg =
      .ok ⟨[3, 2, 1], [1, 2, 3], dimS, dimKg⟩ ∧
    DataArray.integ ⟨[3, 2, 1], [1, 2, 3], dimS, dimKg⟩
      ⟨1, dimS⟩ ⟨2, dimS⟩ = .error .unsortedArray :=
  claim_C9_amended [3, 2, 1] [1, 2, 3] dimS dimKg ⟨1, dimS⟩ ⟨2, dimS⟩
    (by decide) (by norm_num [List.chain'_cons]) (by decide)

/-- For an exact span `k * st`, `np.arange (a) (a + k*st + st) st`
produces precisely the `k + 1` points `a, a + st, …, a + k*st`. -/
theorem npArange_exact (a st : ℚ) (k : ℕ) (hst : 0 < st) :
    npArange a (a + k * st + st) st =
      (List.range (k + 1)).map (fun j : ℕ => a + (j : ℚ) * st) := by
  have hcount : Int.toNat ⌈(a + k * st + st - a) / st⌉ = k + 1 := by
    have h1 : a + k * st + st - a = ((k : ℚ) + 1) * st := by ring
    have h2 : ((k : ℚ) + 1) * st / st = ((k : ℚ) + 1) := by
      field_simp
    have h3 : ((k : ℚ) + 1) = ((k + 1 : ℕ) : ℚ) := by push_cast; ring
    rw [h1, h2, h3, Int.ceil_natCast]
    simp
  unfold npArange
  rw [hcount]

/-- Claim C4, amended: the resampling grid starts at
`x_min = max(min A.X, min B.X)`, uses the minimum consecutive spacing of
both grids as step, and — *provided the overlap span is an exact multiple
of that step* — ends exactly at `x_max = min(max A.X, max B.X)`, with no
grid point outside `[x_min, x_max]`.  (When the span is not an exact
multiple, the counterexample shows the grid overshoots `x_max`.) -/
theorem claim_C4_amended (A B : DataArray)
    (mn1 mn2 mx1 mx2 s1 s2 : ℚ) (k : ℕ)
    (hdim : A.Xdim = B.Xdim)
    (hmn1 : npMin A.X = .ok mn1) (hmn2 : npMin B.X = .ok mn2)
    (hmx1 : npMax A.X = .ok mx1) (hmx2 : npMax B.X = .ok mx2)
    (hs1 : npMin (npDiff A.X) = .ok s1) (hs2 : npMin (npDiff B.X) = .ok s2)
    (hpos : 0 < min s1 s2)
    (hspan : min mx1 mx2 - max mn1 mn2 = k * min s1 s2) :
    ∃ g ys1 ys2, computeXScale A B = .ok (g, ys1, ys2) ∧
      g = (List.range (k + 1)).map
        (fun j : ℕ => max mn1 mn2 + (j : ℚ) * min s1 s2) ∧
      min mx1 mx2 ∈ g ∧
      (∀ x ∈ g, max mn1 mn2 ≤ x ∧ x ≤ min mx1 mx2) := by
  have hne : qne ⟨1, A.Xdim⟩ (.quant (⟨1, B.Xdim⟩ : Quantity)) = .ok false := by
    simp [qne, hdim]
  have hxmax : min mx1 mx2 = max mn1 mn2 + (k : ℚ) * min s1 s2 := by
    linarith [hspan]
  have hgrid : npArange (max mn1 mn2) (min mx1 mx2 + min s1 s2) (min s1 s2)
      = (List.range (k + 1)).map
        (fun j : ℕ => max mn1 mn2 + (j : ℚ) * min s1 s2) := by
    rw [hxmax]
    exact npArange_exact _ _ _ hpos
  have hrun : computeXScale A B = .ok
      (npArange (max mn1 mn2) (min mx1 mx2 + min s1 s2) (min s1 s2),
       (npArange (max mn1 mn2) (min mx1 mx2 + min s1 s2)
          (min s1 s2)).map (fun x => npInterp x A.X A.Y),
       (npArange (max mn1 mn2) (min mx1 mx2 + min s1 s2)
          (min s1 s2)).map (fun x => npInterp x B.X B.Y)) := by
    simp [computeXScale, hne, hmn1, hmn2, hmx1, hmx2, hs1, hs2, bind_ok]
  refine ⟨_, _, _, hrun, hgrid, ?_, ?_⟩
  · rw [hgrid]
    refine List.mem_map.mpr ⟨k, List.mem_range.mpr (Nat.lt_succ_self k), ?_⟩
    linarith
  · intro x hx
    rw [hgrid] at hx
    obtain ⟨j, hj, rfl⟩ := List.mem_map.mp hx
    have hj' : (j : ℚ) ≤ (k : ℚ) :=
      Nat.cast_le.mpr (Nat.lt_succ_iff.mp (List.mem_range.mp hj))
    have hge : 0 ≤ (j : ℚ) * min s1 s2 :=
      mul_nonneg (Nat.cast_nonneg j) hpos.le
    have hle : (j : ℚ) * min s1 s2 ≤ (k : ℚ) * min s1 s2 :=
      mul_le_mul_of_nonneg_right hj' hpos.le
    constructor
    · linarith
    · rw [hxmax]; linarith

theorem linspace_length (a b : ℚ) (n : ℕ) : (linspace a b n).length = n := by
  unfold linspace
  split
  · simp_all
  · simp

theorem drop1_getD (l : List ℚ) (j : ℕ) :
    (l.drop 1).getD j 0 = l.getD (j + 1) 0 := by
  cases l <;> rfl

/-- The sampling loop succeeds and collects `SIValue` of every output when
all outputs carry the captured Y unit. -/
theorem sampleLoop_ok (f : Quantity → Except Err PhysVal) (dx yu : Dimension) :
    ∀ (Xs : List ℚ) (g : ℕ → PhysVal),
      (∀ j, j < Xs.length → f ⟨Xs.getD j 0, dx⟩ = .ok (g j)) →
      (∀ j, j < Xs.length → unitOf (g j) = yu) →
      sampleLoop f dx yu Xs =
        .ok ((List.range Xs.length).map (fun j => SIValue (g j))) := by
  intro Xs
  induction Xs with
  | nil => intro g _ _; simp [sampleLoop]
  | cons x rest ih =>
    intro g hf hu
    have h0 : f ⟨x, dx⟩ = .ok (g 0) := hf 0 (by simp)
    have hrec := ih (fun j => g (j + 1))
      (fun j hj => hf (j + 1) (by simpa using Nat.succ_lt_succ hj))
      (fun j hj => hu (j + 1) (by simpa using Nat.succ_lt_succ hj))
    have hu0 : unitOf (g 0) = yu := hu 0 (by simp)
    simp only [sampleLoop, h0, bind_ok, hu0]
    simp only [ne_eq, not_true_eq_false, if_false, ite_false, hrec, bind_ok]
    simp [List.range_succ_eq_map, List.map_map, Function.comp]

/-- The sampling loop raises the inconsistent-unit error as soon as some
output's unit differs from the captured Y unit. -/
theorem sampleLoop_err (f : Quantity → Except Err PhysVal) (dx yu : Dimension) :
    ∀ (Xs : List ℚ) (g : ℕ → PhysVal),
      (∀ j, j < Xs.length → f ⟨Xs.getD j 0, dx⟩ = .ok (g j)) →
      (∃ j, j < Xs.length ∧ unitOf (g j) ≠ yu) →
      sampleLoop f dx yu Xs = .error .inconsistentUnit := by
  intro Xs
  induction Xs with
  | nil =>
    rintro g _ ⟨j, hj, _⟩
    simp at hj
  | cons x rest ih =>
    rintro g hf ⟨j, hj, hne⟩
    have h0 : f ⟨x, dx⟩ = .ok (g 0) := hf 0 (by simp)
    by_cases hu0 : unitOf (g 0) = yu
    · have hj0 : j ≠ 0 := fun h => hne (h ▸ hu0)
      have hrec := ih (fun j => g (j + 1))
        (fun j hj => hf (j + 1) (by simpa using Nat.succ_lt_succ hj))
        ⟨j - 1, by simp at hj; omega, by
          show unitOf (g (j - 1 + 1)) ≠ yu
          have hj1 : j - 1 + 1 = j := by omega
          rw [hj1]; exact hne⟩
      simp only [sampleLoop, h0, bind_ok, hu0]
      simp [hrec, bind_err]
    · simp only [sampleLoop, h0, bind_ok]
      simp [hu0]

/-- Claim C10: whenever the function's output at the first sample point is
a bare dimensionless number (the canonical shape whenever Quantity
arithmetic cancels all units and auto-unwraps), `sampleFunction` fails
with the attribute-access error on `Y1.value`; consequently, for
functions whose Quantity outputs are canonical (never a Quantity carrying
the dimensionless unit), a successfully returned DataArray can never have
a dimensionless Y axis. -/
theorem claim_C10 (f : Quantity → Except Err PhysVal) (xmin xmax : Quantity)
    (n : ℕ) (v : ℚ) (hn : 1 ≤ n)
    (h0 : f ⟨(linspace xmin.value xmax.value n).getD 0 0, xmin.unit⟩ =
      .ok (.num v)) :
    sampleFunction f xmin xmax n = .error .attributeError ∧
    (∀ g : Quantity → Except Err PhysVal,
      (∀ x q, g x = .ok (.quant q) → q.unit ≠ dimNone) →
      ∀ B : DataArray, sampleFunction g xmin xmax n = .ok B →
        B.Ydim ≠ dimNone) := by
  constructor
  · have hget : (linspace xmin.value xmax.value n).get? 0 =
        some ((linspace xmin.value xmax.value n).getD 0 0) :=
      get?_of_lt _ 0 (by rw [linspace_length]; omega)
    simp only [sampleFunction, hget, bind_ok, h0]
    rfl
  · intro g hg B hB
    unfold sampleFunction at hB
    cases hx : (linspace xmin.value xmax.value n).get? 0 with
    | none =>
      simp only [hx, bind_err] at hB
      cases hB
    | some x0 =>
      simp only [hx, bind_ok] at hB
      cases hY : g ⟨x0, xmin.unit⟩ with
      | error e =>
        simp only [hY, bind_err] at hB
        cases hB
      | ok Y1 =>
        simp only [hY, bind_ok] at hB
        cases Y1 with
        | num w =>
          simp only [bind_err] at hB
          cases hB
        | quant q =>
          simp only [bind_ok, unitOf_quant] at hB
          cases hL : sampleLoop g xmin.unit q.unit
              ((linspace xmin.value xmax.value n).drop 1) with
          | error e =>
            simp only [hL, bind_err] at hB
            cases hB
          | ok ys =>
            simp only [hL, bind_ok, mkDataArray] at hB
            split at hB
            · cases hB
              exact hg _ _ hY
            · cases hB

/-- Witness for claim C10: `f(x) = x/s` over [0 s, 3 s] with 4 samples
dies with the attribute-access error. -/
theorem claim_C10_witness :
    sampleFunction fDimless ⟨0, dimS⟩ ⟨3, dimS⟩ 4 = .error .attributeError :=
  (claim_C10 fDimless ⟨0, dimS⟩ ⟨3, dimS⟩ 4 0 (by decide)
    (by with_unfolding_all decide)).1

/-- Claim C8, amended: provided `n ≥ 1` and the output at the *first*
sample is a Quantity (a bare-number first output instead aborts with an
attribute error — see the counterexample), `sampleFunction` builds the
`n` inclusive linearly spaced samples, fails with the
inconsistent-unit error exactly when some output Dimension differs from
the first one, and otherwise returns the resulting DataArray. -/
theorem claim_C8_amended (f : Quantity → Except Err PhysVal)
    (xmin xmax : Quantity) (n : ℕ) (ys : ℕ → PhysVal) (q0 : Quantity)
    (hn : 1 ≤ n)
    (hf : ∀ i, i < n →
      f ⟨(linspace xmin.value xmax.value n).getD i 0, xmin.unit⟩ =
        .ok (ys i))
    (h0 : ys 0 = .quant q0) :
    ((∀ i, i < n → unitOf (ys i) = q0.unit) →
      sampleFunction f xmin xmax n = .ok
        ⟨linspace xmin.value xmax.value n,
         (List.range n).map (fun i => SIValue (ys i)),
         xmin.unit, q0.unit⟩) ∧
    ((∃ i, i < n ∧ unitOf (ys i) ≠ q0.unit) →
      sampleFunction f xmin xmax n = .error .inconsistentUnit) := by
  have hget : (linspace xmin.value xmax.value n).get? 0 =
      some ((linspace xmin.value xmax.value n).getD 0 0) :=
    get?_of_lt _ 0 (by rw [linspace_length]; omega)
  have hlen1 : ((linspace xmin.value xmax.value n).drop 1).length = n - 1 := by
    rw [List.length_drop, linspace_length]
  have hfd : ∀ j, j < n - 1 →
      f ⟨((linspace xmin.value xmax.value n).drop 1).getD j 0, xmin.unit⟩ =
        .ok (ys (j + 1)) := by
    intro j hj
    rw [drop1_getD]
    exact hf (j + 1) (by omega)
  constructor
  · intro hu
    have hL := sampleLoop_ok f xmin.unit q0.unit
      ((linspace xmin.value xmax.value n).drop 1) (fun j => ys (j + 1))
      (by rw [hlen1]; exact hfd)
      (by rw [hlen1]; exact fun j hj => hu (j + 1) (by omega))
    have hsplit : (List.range n).map (fun i => SIValue (ys i)) =
        SIValue (ys 0) ::
          (List.range (n - 1)).map (fun j => SIValue (ys (j + 1))) := by
      conv_lhs => rw [show n = (n - 1) + 1 by omega, List.range_succ_eq_map]
      simp [List.map_map, Function.comp]
    simp only [sampleFunction, hget, bind_ok, hf 0 (by omega), h0]
    simp only [bind_ok, unitOf_quant, hL, hlen1]
    simp only [mkDataArray, linspace_length, List.length_cons,
      List.length_map, List.length_range]
    rw [if_pos (by omega)]
    rw [hsplit, h0]
    rfl
  · rintro ⟨i, hi, hne⟩
    have hi0 : i ≠ 0 := by
      intro h
      rw [h, h0] at hne
      exact hne rfl
    have hL := sampleLoop_err f xmin.unit q0.unit
      ((linspace xmin.value xmax.value n).drop 1) (fun j => ys (j + 1))
      (by rw [hlen1]; exact hfd)
      ⟨i - 1, by rw [hlen1]; omega, by
        show unitOf (ys (i - 1 + 1)) ≠ q0.unit
        have hi1 : i - 1 + 1 = i := by omega
        rw [hi1]; exact hne⟩
    simp only [sampleFunction, hget, bind_ok, hf 0 (by omega), h0]
    simp only [bind_ok, unitOf_quant, hL, bind_err]

/-! ### Lemmas for the integration safety claim -/

theorem qge_of_units {a : Quantity} {y : PhysVal} (h : a.unit = unitOf y) :
    qge a y = .ok (decide (SIValue y < a.value) ||
      decide (a.value = SIValue y)) := by
  rw [qge, qgt_of_units h, bind_ok]
  simp only [qeq, turnToQuantity_unit, turnToQuantity_value, h, if_true]
  rfl

theorem qle_of_units {a : Quantity} {y : PhysVal} (h : a.unit = unitOf y) :
    qle a y = .ok (decide (a.value < SIValue y) ||
      decide (a.value = SIValue y)) := by
  rw [qle, qlt_of_units h, bind_ok]
  simp only [qeq, turnToQuantity_unit, turnToQuantity_value, h, if_true]
  rfl

theorem unitOf_axisUnitMul (c : ℚ) (d : Dimension) :
    unitOf (pvMul (.num c) (.quant (⟨1, d⟩ : Quantity))) = d := by
  rw [unitOf_pvMul]
  simp

theorem SIValue_axisUnitMul (c : ℚ) (d : Dimension) :
    SIValue (pvMul (.num c) (.quant (⟨1, d⟩ : Quantity))) = 1 * c := by
  simp [pvMul, qmul]

/-- `DataArray.__call__` succeeds inside the abscissa range when the
argument carries the X-axis unit, returning a value carrying the Y-axis
unit. -/
theorem call_succ (A : DataArray) (x : Quantity) (mn mx : ℚ)
    (hu : x.unit = A.Xdim)
    (hmn : npMin A.X = .ok mn) (hmx : npMax A.X = .ok mx)
    (h1 : mn ≤ x.value) (h2 : x.value ≤ mx) :
    ∃ r, A.call x = .ok r ∧ unitOf r = A.Ydim := by
  refine ⟨pvMul (.num (npInterp (x.value / 1) A.X A.Y))
    (.quant ⟨1, A.Ydim⟩), ?_, by rw [unitOf_pvMul]; simp⟩
  have hdiv : qdiv x (.quant (⟨1, A.Xdim⟩ : Quantity)) = .num (x.value / 1) := by
    simp [qdiv, Quantity.removeUnitIfPossible, hu, div_self_dim]
  have hge : qge x (pvMul (.num mn) (.quant (⟨1, A.Xdim⟩ : Quantity))) =
      .ok true := by
    rw [qge_of_units (by rw [unitOf_axisUnitMul, hu]), SIValue_axisUnitMul,
      one_mul]
    have hor : mn < x.value ∨ x.value = mn := by
      rcases lt_or_eq_of_le h1 with h | h
      · exact Or.inl h
      · exact Or.inr h.symm
    rcases hor with h | h <;> simp [h]
  have hle : qle x (pvMul (.num mx) (.quant (⟨1, A.Xdim⟩ : Quantity))) =
      .ok true := by
    rw [qle_of_units (by rw [unitOf_axisUnitMul, hu]), SIValue_axisUnitMul,
      one_mul]
    have hor : x.value < mx ∨ x.value = mx := lt_or_eq_of_le h2
    rcases hor with h | h <;> simp [h]
  simp only [DataArray.call, hdiv, bind_ok, hmn, hmx, hge, hle, if_true]

/-- The first scanning loop of `integ` stops at the first index whose
sample is at least `xmin`, staying within bounds whenever some sample
majorises `xmin.value`. -/
theorem integScanMin_succ (d : Dimension) (xmin : Quantity)
    (hu : xmin.unit = d) :
    ∀ (rest : List ℚ) (i j : ℕ) (w : ℚ),
      rest.get? j = some w → xmin.value ≤ w →
      ∃ k, integScanMin d xmin rest i = .ok (i + k) ∧ k ≤ j ∧
        ∃ v, rest.get? k = some v := by
  intro rest
  induction rest with
  | nil =>
    intro i j w hj _
    simp at hj
  | cons v0 rest2 ih =>
    intro i j w hj hw
    have hcmp : pvLt (axisElem v0 d) (.quant xmin) =
        .ok (decide (v0 < xmin.value)) := by
      rw [pvLt_of_units (by simp [hu])]
      simp
    have hstep : integScanMin d xmin (v0 :: rest2) i =
        (do
          let b ← pvLt (axisElem v0 d) (.quant xmin)
          if b then integScanMin d xmin rest2 (i + 1) else .ok i) := rfl
    by_cases hlt : v0 < xmin.value
    · have hj0 : j ≠ 0 := by
        intro h
        subst h
        simp at hj
        exact absurd hw (not_le.mpr (hj ▸ hlt))
      obtain ⟨j2, rfl⟩ : ∃ j2, j = j2 + 1 := ⟨j - 1, by omega⟩
      have hj2 : rest2.get? j2 = some w := by simpa using hj
      obtain ⟨k2, hrun, hk2, v2, hget2⟩ := ih (i + 1) j2 w hj2 hw
      refine ⟨k2 + 1, ?_, by omega, v2, by simpa using hget2⟩
      rw [hstep, hcmp, bind_ok, if_pos (decide_eq_true hlt), hrun]
      congr 1
      omega
    · refine ⟨0, ?_, by omega, v0, rfl⟩
      rw [hstep, hcmp, bind_ok, if_neg (by simp [hlt]), Nat.add_zero]

/-- The second scanning loop of `integ` terminates inside the array and
keeps accumulating a value carrying the product unit, as long as the last
sample majorises `xmax.value` and the suffix argument is in sync. -/
theorem integScanMax_succ (A : DataArray) (xmax : Quantity)
    (hu : xmax.unit = A.Xdim) (hlen : A.X.length = A.Y.length)
    (hlast : ∀ w, A.X.get? (A.X.length - 1) = some w → xmax.value ≤ w) :
    ∀ (rest : List ℚ) (i : ℕ) (acc : PhysVal),
      rest = A.X.drop i → 1 ≤ i → i < A.X.length →
      unitOf acc = A.Ydim.mul A.Xdim →
      ∃ p, integScanMax A xmax rest i acc = .ok p ∧
        1 ≤ p.1 ∧ p.1 < A.X.length ∧ unitOf p.2 = A.Ydim.mul A.Xdim := by
  intro rest
  induction rest with
  | nil =>
    intro i acc hdrop hi1 hil _
    exfalso
    have hl := List.length_drop i A.X
    rw [← hdrop] at hl
    simp at hl
    omega
  | cons v0 rest2 ih =>
    intro i acc hdrop hi1 hil hacc
    have hv0 : A.X.get? i = some v0 := by
      have h := List.get?_drop A.X i 0
      rw [← hdrop] at h
      simpa using h.symm
    have hcmp : pvLt (axisElem v0 A.Xdim) (.quant xmax) =
        .ok (decide (v0 < xmax.value)) := by
      rw [pvLt_of_units (by simp [hu])]
      simp
    have hstep : integScanMax A xmax (v0 :: rest2) i acc =
        (do
          let b ← pvLt (axisElem v0 A.Xdim) (.quant xmax)
          if b then do
            let x1 ← axisGet A.X A.Xdim (i - 1)
            let y1 ← axisGet A.Y A.Ydim (i - 1)
            let x2 ← axisGet A.X A.Xdim i
            let y2 ← axisGet A.Y A.Ydim i
            let t ← trapezoid x1 y1 x2 y2
            let acc2 ← pvAdd acc t
            integScanMax A xmax rest2 (i + 1) acc2
          else .ok (i, acc)) := rfl
    by_cases hlt : v0 < xmax.value
    · have hi2 : i + 1 < A.X.length := by
        rcases Nat.lt_or_ge (i + 1) A.X.length with h | h
        · exact h
        · exfalso
          have hieq : i = A.X.length - 1 := by omega
          rw [hieq] at hv0
          exact absurd (hlast v0 hv0) (not_le.mpr hlt)
      have hx1 : axisGet A.X A.Xdim (i - 1) =
          .ok (axisElem (A.X.getD (i - 1) 0) A.Xdim) := by
        unfold axisGet
        rw [get?_of_lt _ _ (by omega)]
      have hy1 : axisGet A.Y A.Ydim (i - 1) =
          .ok (axisElem (A.Y.getD (i - 1) 0) A.Ydim) := by
        unfold axisGet
        rw [get?_of_lt _ _ (by omega)]
      have hx2 : axisGet A.X A.Xdim i =
          .ok (axisElem (A.X.getD i 0) A.Xdim) := by
        unfold axisGet
        rw [get?_of_lt _ _ (by omega)]
      have hy2 : axisGet A.Y A.Ydim i =
          .ok (axisElem (A.Y.getD i 0) A.Ydim) := by
        unfold axisGet
        rw [get?_of_lt _ _ (by omega)]
      obtain ⟨t, ht, hut⟩ := trapezoid_succ
        (axisElem (A.X.getD (i - 1) 0) A.Xdim)
        (axisElem (A.Y.getD (i - 1) 0) A.Ydim)
        (axisElem (A.X.getD i 0) A.Xdim)
        (axisElem (A.Y.getD i 0) A.Ydim)
        (by simp) (by simp)
      have hut2 : unitOf t = A.Ydim.mul A.Xdim := by
        rw [hut]
        simp
      obtain ⟨acc2, hadd, hu2⟩ := pvAdd_succ (v := acc) (w := t)
        (by rw [hacc, hut2])
      have hdrop2 : rest2 = A.X.drop (i + 1) := by
        have h := List.drop_drop 1 i A.X
        rw [← hdrop] at h
        simpa using h
      obtain ⟨p, hrun, hp1, hp2, hp3⟩ := ih (i + 1) acc2 hdrop2
        (by omega) hi2 (by rw [hu2, hacc])
      refine ⟨p, ?_, hp1, hp2, hp3⟩
      rw [hstep, hcmp, bind_ok, if_pos (decide_eq_true hlt), hx1, bind_ok,
        hy1, bind_ok, hx2, bind_ok, hy2, bind_ok, ht, bind_ok, hadd,
        bind_ok, hrun]
    · refine ⟨(i, acc), ?_, hi1, hil, hacc⟩
      rw [hstep, hcmp, bind_ok, if_neg (by simp [hlt])]

theorem asc_chain : ∀ l : List ℚ,
    isInAscendingOrder l = true ↔ List.Chain' (· < ·) l
  | [] => by simp [isInAscendingOrder]
  | [x] => by simp [isInAscendingOrder]
  | x :: y :: r => by
    rw [List.chain'_cons, ← asc_chain (y :: r)]
    simp [isInAscendingOrder]

theorem foldl_min_of_le : ∀ (xs : List ℚ) (x : ℚ),
    (∀ z ∈ xs, x ≤ z) → List.foldl min x xs = x
  | [], _, _ => rfl
  | y :: r, x, h => by
    rw [List.foldl_cons, min_eq_left (h y (by simp))]
    exact foldl_min_of_le r x (fun z hz => h z (by simp [hz]))

theorem foldl_max_last : ∀ (xs : List ℚ) (x : ℚ),
    List.Chain' (· < ·) (x :: xs) →
    ∀ w, (x :: xs).get? ((x :: xs).length - 1) = some w →
      List.foldl max x xs = w
  | [], x, _, w, hw => by
    simp at hw
    rw [hw]
    rfl
  | y :: r, x, hch, w, hw => by
    have hxy : x < y := (List.chain'_cons.mp hch).1
    have hch2 : List.Chain' (· < ·) (y :: r) := (List.chain'_cons.mp hch).2
    rw [List.foldl_cons, max_eq_right hxy.le]
    apply foldl_max_last r y hch2 w
    simpa using hw

/-- Claim C3, amended: `integ` completes and returns a value for every
DataArray with strictly ascending X of length ≥ 2 matching Y, and every
pair of unit-correct bounds with `min X ≤ xmin ≤ xmax ≤ max X`,
*provided additionally that `xmin` does not exceed the second-to-last
sample*.  (When `xmin` lies strictly above the second-to-last sample the
second scanning loop runs one step past the end of the array and the call
dies with an `IndexError` — see the counterexample.) -/
theorem claim_C3_amended (A : DataArray) (xmin xmax : Quantity) (mn mx : ℚ)
    (hsort : isInAscendingOrder A.X = true)
    (hlen : A.X.length = A.Y.length)
    (hn : 2 ≤ A.X.length)
    (hxu : xmin.unit = A.Xdim) (hyu : xmax.unit = A.Xdim)
    (hmn : npMin A.X = .ok mn) (hmx : npMax A.X = .ok mx)
    (h1 : mn ≤ xmin.value) (h2 : xmin.value ≤ xmax.value)
    (h3 : xmax.value ≤ mx)
    (hpen : xmin.value ≤ A.X.getD (A.X.length - 2) 0) :
    ∃ r, A.integ xmin xmax = .ok r := by
  obtain ⟨x0, xs, hX⟩ : ∃ x0 xs, A.X = x0 :: xs := by
    cases hc : A.X with
    | nil => rw [hc] at hn; simp at hn
    | cons a l => exact ⟨a, l, rfl⟩
  have hI : qgt xmin (.quant xmax) = .ok false := by
    rw [qgt_of_units (by simp [hxu, hyu])]
    simp [not_lt.mpr h2]
  have hLo : qlt xmin (pvMul (.num mn) (.quant (⟨1, A.Xdim⟩ : Quantity))) =
      .ok false := by
    rw [qlt_of_units (by rw [unitOf_axisUnitMul, hxu]), SIValue_axisUnitMul,
      one_mul]
    simp [not_lt.mpr h1]
  have hHi : qgt xmax (pvMul (.num mx) (.quant (⟨1, A.Xdim⟩ : Quantity))) =
      .ok false := by
    rw [qgt_of_units (by rw [unitOf_axisUnitMul, hyu]), SIValue_axisUnitMul,
      one_mul]
    simp [not_lt.mpr h3]
  have hchain : List.Chain' (· < ·) A.X := (asc_chain A.X).mp hsort
  have hlast : ∀ w, A.X.get? (A.X.length - 1) = some w → xmax.value ≤ w := by
    intro w hw
    have hfold : List.foldl max x0 xs = w := by
      apply foldl_max_last xs x0 (hX ▸ hchain) w
      rw [← hX]
      exact hw
    have hmxw : mx = w := by
      rw [hX] at hmx
      simp [npMax] at hmx
      rw [← hmx, hfold]
    linarith
  have hpen2 : A.X.get? (A.X.length - 2) =
      some (A.X.getD (A.X.length - 2) 0) :=
    get?_of_lt _ _ (by omega)
  obtain ⟨k, hscan1, hk, v0, hgetk⟩ :=
    integScanMin_succ A.Xdim xmin hxu A.X 0 (A.X.length - 2) _ hpen2 hpen
  obtain ⟨r1, hcall1, hur1⟩ := call_succ A xmin mn mx hxu hmn hmx h1
    (le_trans h2 h3)
  have hx2 : axisGet A.X A.Xdim k =
      .ok (axisElem (A.X.getD k 0) A.Xdim) := by
    unfold axisGet
    rw [get?_of_lt _ _ (by omega)]
  have hy2 : axisGet A.Y A.Ydim k =
      .ok (axisElem (A.Y.getD k 0) A.Ydim) := by
    unfold axisGet
    rw [get?_of_lt _ _ (by omega)]
  obtain ⟨t0, ht0, hut0⟩ := trapezoid_succ
    (.quant xmin) r1
    (axisElem (A.X.getD k 0) A.Xdim)
    (axisElem (A.Y.getD k 0) A.Ydim)
    (by simp [hxu]) (by simp [hur1])
  have hut0' : unitOf t0 = A.Ydim.mul A.Xdim := by
    rw [hut0]
    simp
  obtain ⟨p, hrun2, hp1, hp2, hp3⟩ := integScanMax_succ A xmax hyu hlen
    hlast (A.X.drop (k + 1)) (k + 1) t0 rfl (by omega) (by omega) hut0'
  have hx1e : axisGet A.X A.Xdim (p.1 - 1) =
      .ok (axisElem (A.X.getD (p.1 - 1) 0) A.Xdim) := by
    unfold axisGet
    rw [get?_of_lt _ _ (by omega)]
  have hy1e : axisGet A.Y A.Ydim (p.1 - 1) =
      .ok (axisElem (A.Y.getD (p.1 - 1) 0) A.Ydim) := by
    unfold axisGet
    rw [get?_of_lt _ _ (by omega)]
  obtain ⟨r2, hcall2, hur2⟩ := call_succ A xmax mn mx hyu hmn hmx
    (le_trans h1 h2) h3
  obtain ⟨tE, htE, hutE⟩ := trapezoid_succ
    (axisElem (A.X.getD (p.1 - 1) 0) A.Xdim)
    (axisElem (A.Y.getD (p.1 - 1) 0) A.Ydim)
    (.quant xmax) r2
    (by simp [hyu]) (by simp [hur2])
  obtain ⟨res, hres, -⟩ := pvAdd_succ (v := p.2) (w := tE)
    (by rw [hp3, hutE, hur2]; simp [hyu])
  refine ⟨res, ?_⟩
  have hscan1' : integScanMin A.Xdim xmin A.X 0 = .ok k := by
    rw [hscan1]
    congr 1
    omega
  simp only [DataArray.integ, hmn, hmx, bind_ok, hsort, not_true_eq_false,
    if_false, ite_false, hI, hLo, hHi, hscan1', hcall1, hx2, hy2, ht0,
    hrun2, hx1e, hy1e, hcall2, htE, hres]
  rfl

/-- Witness for claim C3 on the concrete array [0,1,2,3] s / [1,2,3,4] kg
with the bounds 0 s and 3 s (which satisfy the amended side condition
`xmin ≤ X[n-2] = 2`). -/
theorem claim_C3_witness :
    ∃ r, DataArray.integ ⟨[0, 1, 2, 3], [1, 2, 3, 4], dimS, dimKg⟩
      ⟨0, dimS⟩ ⟨3, dimS⟩ = .ok r :=
  claim_C3_amended ⟨[0, 1, 2, 3], [1, 2, 3, 4], dimS, dimKg⟩
    ⟨0, dimS⟩ ⟨3, dimS⟩ 0 3
    (by with_unfolding_all decide) (by decide) (by decide) rfl rfl
    (by with_unfolding_all decide) (by with_unfolding_all decide)
    (by with_unfolding_all decide) (by with_unfolding_all decide)
    (by with_unfolding_all decide) (by with_unfolding_all decide)

/-- Witness for claim C4 on A = ([0,1,2] s, zeros) and B = ([0,2] s,
zeros): step 1, overlap span 2 = 2·1 exact, so the grid is [0, 1, 2],
ends at `x_max` and stays inside the overlap. -/
theorem claim_C4_witness :
    ∃ g ys1 ys2,
      computeXScale ⟨[0, 1, 2], [0, 0, 0], dimS, dimKg⟩
          ⟨[0, 2], [0, 0], dimS, dimKg⟩ = .ok (g, ys1, ys2) ∧
      g = (List.range (2 + 1)).map
        (fun j : ℕ => max (0 : ℚ) 0 + (j : ℚ) * min (1 : ℚ) 2) ∧
      min (2 : ℚ) 2 ∈ g ∧
      (∀ x ∈ g, max (0 : ℚ) 0 ≤ x ∧ x ≤ min (2 : ℚ) 2) :=
  claim_C4_amended ⟨[0, 1, 2], [0, 0, 0], dimS, dimKg⟩
    ⟨[0, 2], [0, 0], dimS, dimKg⟩ 0 0 2 2 1 2 2 rfl
    (by with_unfolding_all decide) (by with_unfolding_all decide)
    (by with_unfolding_all decide) (by with_unfolding_all decide)
    (by with_unfolding_all decide) (by with_unfolding_all decide)
    (by with_unfolding_all decide) (by with_unfolding_all decide)

/-- Witness for claim C8: the spec scenario
`sampleFunction(f(x) = x/s*kg + 1kg, 0 s, 3 s, 4)` reproduces
`DataArray([0,1,2,3] s, [1,2,3,4] kg)` exactly. -/
theorem claim_C8_witness :
    sampleFunction fLinear ⟨0, dimS⟩ ⟨3, dimS⟩ 4 =
      .ok ⟨[0, 1, 2, 3], [1, 2, 3, 4], dimS, dimKg⟩ := by
  have h := (claim_C8_amended fLinear ⟨0, dimS⟩ ⟨3, dimS⟩ 4
      (fun i => .quant ⟨1 + (i : ℚ), dimKg⟩) ⟨1, dimKg⟩
      (by decide)
      (by with_unfolding_all decide)
      (by with_unfolding_all decide)).1
    (by with_unfolding_all decide)
  rw [h]
  with_unfolding_all decide

end Pysics
